import Mathlib

/-!
Verification of the web-search MCP server's pure core against its
specification.  The definitions below are shallow embeddings of the
TypeScript source: `src/utils.ts` (text cleaning, previews, domain
normalization, domain-filtered query construction, PDF detection) and
`src/api.ts` (request validation and response formatting).

JavaScript strings are modelled as Lean `String`s (lists of characters);
`String.prototype.length`, `substring`, `trim`, `toLowerCase` and the
regexes used by the source act on ASCII text in all behaviour the claims
exercise, so the embedding uses the corresponding character-list
operations, with the JS whitespace class restricted to its ASCII part.
-/

namespace WebSearchMcp

/-- The ASCII part of the JavaScript `\s` character class, as matched by the
regexes in `cleanText` and by `String.prototype.trim`. -/
def isWs (c : Char) : Bool :=
  c == ' ' || c == '\t' || c == '\n' || c == '\r' || c == '\x0b' || c == '\x0c'

/-- `text.replace(/\s+/g, ' ')` from `cleanText`: every maximal run of
whitespace becomes a single space.  The boolean flag records whether the
scanner is currently inside a whitespace run (in which case further
whitespace of the same run emits nothing). -/
def collapseWsGo : Bool → List Char → List Char
  | _, [] => []
  | true, c :: cs =>
    if isWs c then collapseWsGo true cs else c :: collapseWsGo false cs
  | false, c :: cs =>
    if isWs c then ' ' :: collapseWsGo true cs else c :: collapseWsGo false cs

/-- `text.replace(/\n\s*\n/g, '\n')` from `cleanText`.  The state `some buf`
means the scanner has read a `'\n'` and `buf` is the whitespace read since
the most recent `'\n'` of the current whitespace run; leftmost-longest regex
matching replaces the span from the first to the last `'\n'` of such a run
by a single `'\n'`, keeping the whitespace after the last `'\n'`. -/
def collapseNlGo : Option (List Char) → List Char → List Char
  | none, [] => []
  | some buf, [] => '\n' :: buf
  | none, c :: cs =>
    if c = '\n' then collapseNlGo (some []) cs
    else c :: collapseNlGo none cs
  | some buf, c :: cs =>
    if c = '\n' then collapseNlGo (some []) cs
    else if isWs c then collapseNlGo (some (buf ++ [c])) cs
    else '\n' :: (buf ++ c :: collapseNlGo none cs)

/-- `String.prototype.trim`: drop whitespace from both ends. -/
def trimWs (l : List Char) : List Char :=
  ((l.dropWhile isWs).reverse.dropWhile isWs).reverse

/-- `cleanText(text, maxLength)` from `src/utils.ts`: collapse whitespace
runs to one space, collapse newline-bounded blank sequences to one newline,
trim, then `substring(0, maxLength)`. -/
def cleanText (text : String) (maxLength : Nat) : String :=
  ⟨(trimWs (collapseNlGo none (collapseWsGo false text.data))).take maxLength⟩

/-- `getContentPreview(text, maxLength)` from `src/utils.ts`: clean to the
bound, and append `"..."` exactly when the cleaned text's length equals the
bound. -/
def getContentPreview (text : String) (maxLength : Nat) : String :=
  let cleaned := cleanText text maxLength
  if cleaned.length = maxLength then cleaned ++ "..." else cleaned

/-- `String.prototype.toLowerCase`, on the ASCII range exercised here. -/
def jsToLower (l : List Char) : List Char := l.map Char.toLower

/-- `normalized.replace(/^https?:\/\//, '')` from `normalizeDomain`. -/
def stripProto : List Char → List Char
  | 'h' :: 't' :: 't' :: 'p' :: 's' :: ':' :: '/' :: '/' :: rest => rest
  | 'h' :: 't' :: 't' :: 'p' :: ':' :: '/' :: '/' :: rest => rest
  | l => l

/-- `normalized.replace(/^www\./, '')` from `normalizeDomain`. -/
def stripWww : List Char → List Char
  | 'w' :: 'w' :: 'w' :: '.' :: rest => rest
  | l => l

/-- `s.split(sep)[0]`: everything before the first occurrence of `sep`. -/
def takeUntil (sep : Char) (l : List Char) : List Char :=
  l.takeWhile (fun c => c != sep)

/-- `normalizeDomain(domain)` from `src/utils.ts`: trim, lowercase, strip a
leading protocol, strip a leading `www.`, cut at the first `/`, cut at the
first `:`. -/
def normalizeDomain (domain : String) : String :=
  let n := jsToLower (trimWs domain.data)
  let n := stripProto n
  let n := stripWww n
  let n := takeUntil '/' n
  let n := takeUntil ':' n
  ⟨n⟩

/-- `buildDomainFilteredQuery(query, domains, maxDomainsInQuery)` from
`src/utils.ts`: normalize the domains and drop the empty ones; return the
query unchanged when none remain or when more than `maxDomainsInQuery`
remain; otherwise append a single `site:` clause or a parenthesized
`OR`-joined group, in the given order. -/
def buildDomainFilteredQuery (query : String) (domains : List String)
    (maxDomainsInQuery : Nat) : String :=
  if domains.isEmpty then query
  else
    let normalizedDomains :=
      (domains.map normalizeDomain).filter (fun d => d.data.length > 0)
    if normalizedDomains.isEmpty then query
    else if normalizedDomains.length > maxDomainsInQuery then query
    else
      match normalizedDomains with
      | [d] => query ++ " site:" ++ d
      | _ =>
        let siteOperators :=
          String.intercalate " OR " (normalizedDomains.map (fun d => "site:" ++ d))
        query ++ " (" ++ siteOperators ++ ")"

/-- A parsed URL as produced by the platform's WHATWG `URL` constructor:
the fields `isPdfUrl` reads. -/
structure UrlParts where
  scheme : String
  host : String
  pathname : String
deriving DecidableEq

/-- Modelled from the spec: the WHATWG `URL` parser invoked by
`new URL(url)` is a platform facility, not part of this repository.  This
models its behaviour on hierarchical `scheme://host/path?query#fragment`
URLs — the shape every claim exercises — and fails (throws, i.e. returns
`none`) on strings without a `scheme://` head, as the platform parser does
for scheme-less strings. -/
def parseUrl (url : String) : Option UrlParts :=
  let l := url.data
  let scheme := l.takeWhile (fun c =>
    c.isAlpha || c.isDigit || c == '+' || c == '-' || c == '.')
  match scheme.head? with
  | none => none
  | some c0 =>
    if c0.isAlpha then
      match l.drop scheme.length with
      | ':' :: '/' :: '/' :: r =>
        let host := r.takeWhile (fun c => c != '/' && c != '?' && c != '#')
        if host.isEmpty then none
        else
          let path := (r.drop host.length).takeWhile (fun c => c != '?' && c != '#')
          some ⟨⟨scheme⟩, ⟨host⟩, if path.isEmpty then "/" else ⟨path⟩⟩
      | _ => none
    else none

/-- `url.toLowerCase().endsWith(suffix)` for an already-lowercase suffix. -/
def endsWithCI (s : String) (suffix : String) : Bool :=
  suffix.data.isSuffixOf (jsToLower s.data)

/-- `isPdfUrl(url)` from `src/utils.ts`: parse the URL and test whether its
pathname ends in `.pdf` case-insensitively; if parsing fails, test the raw
string instead. -/
def isPdfUrl (url : String) : Bool :=
  match parseUrl url with
  | some parsed => endsWithCI parsed.pathname ".pdf"
  | none => endsWithCI url ".pdf"

/-! ### The HTTP gateway, `src/api.ts` -/

/-- The `fetchStatus` field of a `SearchResult` (`src/types.ts`). -/
inductive FetchStatus where
  | success
  | error
  | timeout
deriving DecidableEq

/-- A `SearchResult` record (`src/types.ts`) as handed to the `/api/search`
response formatter: the fields that formatter reads. -/
structure SearchResult where
  title : String
  url : String
  description : String
  timestamp : String
  fullContent : String
  contentPreview : String
  wordCount : Nat
  fetchStatus : FetchStatus
  error : Option String

/-- One formatted record of a `/api/search` response (`src/api.ts`,
`setupRoutes`): optional fields model JSON fields that may be absent. -/
structure FormattedResult where
  title : String
  url : String
  description : String
  timestamp : String
  fetchStatus : FetchStatus
  fullContent : Option String
  contentPreview : Option String
  contentTruncated : Bool
  originalLength : Option Nat
  wordCount : Option Nat
  error : Option String
deriving DecidableEq

/-- JavaScript truthiness of an optional string field: `undefined` and the
empty string are falsy. -/
def jsTruthy : Option String → Bool
  | none => false
  | some s => s != ""

/-- `content.substring(0, m)` for a positive JS number `m`. -/
def substringTo (s : String) (m : Int) : String := ⟨s.data.take m.toNat⟩

/-- `String.prototype.trim` on a `String`. -/
def jsTrim (s : String) : String := ⟨trimWs s.data⟩

/-- The `/api/search` per-result response formatting (`src/api.ts` lines
145–173): populate `fullContent` (truncated to `validatedMaxContentLength`
when that is supplied, positive, and exceeded) when the record carries
non-blank full content, otherwise `contentPreview` when that is non-blank;
expose `error` only for records whose `fetchStatus` is `'error'` with a
truthy error string. -/
def formatSearchResult (validatedMaxContentLength : Option Int)
    (r : SearchResult) : FormattedResult :=
  let err : Option String :=
    if r.fetchStatus = FetchStatus.error ∧ jsTruthy r.error then r.error else none
  if r.fullContent ≠ "" ∧ jsTrim r.fullContent ≠ "" then
    match validatedMaxContentLength with
    | some m =>
      if 0 < m ∧ (r.fullContent.data.length : Int) > m then
        ⟨r.title, r.url, r.description, r.timestamp, r.fetchStatus,
          some (substringTo r.fullContent m), none, true,
          some r.fullContent.data.length, some r.wordCount, err⟩
      else
        ⟨r.title, r.url, r.description, r.timestamp, r.fetchStatus,
          some r.fullContent, none, false, none, some r.wordCount, err⟩
    | none =>
      ⟨r.title, r.url, r.description, r.timestamp, r.fetchStatus,
        some r.fullContent, none, false, none, some r.wordCount, err⟩
  else if r.contentPreview ≠ "" ∧ jsTrim r.contentPreview ≠ "" then
    ⟨r.title, r.url, r.description, r.timestamp, r.fetchStatus,
      none, some r.contentPreview, false, none, none, err⟩
  else
    ⟨r.title, r.url, r.description, r.timestamp, r.fetchStatus,
      none, none, false, none, none, err⟩

/-- The `limit` validation shared verbatim by `/api/search` and
`/api/search/summaries` (`src/api.ts` lines 76–86 and 199–209): default 5
when absent, reject with a 400 error when outside \x7b1, …, 10\x7d, accept
unchanged otherwise. -/
def validateLimit (limit : Option Int) : Except Unit Int :=
  let limitValue := limit.getD 5
  if limitValue < 1 ∨ limitValue > 10 then Except.error ()
  else Except.ok limitValue

/-- The `maxContentLength` validation shared verbatim by `/api/search` and
`/api/content` (`src/api.ts` lines 100–109 and 296–305): reject negative
values with a 400 error, normalize `0` to `undefined` (no limit), pass
positive values through. -/
def validateMaxContentLength (maxContentLength : Option Int) :
    Except Unit (Option Int) :=
  match maxContentLength with
  | none => Except.ok none
  | some v =>
    if v < 0 then Except.error ()
    else Except.ok (if v = 0 then none else some v)

/-- The `/api/content` response's `content` and `contentTruncated` fields
(`src/api.ts` lines 325–328): truncate the extracted content only when
`validatedMaxContentLength` is supplied, positive, and exceeded. -/
def contentResponseBody (validatedMaxContentLength : Option Int)
    (content : String) : String × Bool :=
  match validatedMaxContentLength with
  | some m =>
    if 0 < m ∧ (content.data.length : Int) > m then (substringTo content m, true)
    else (content, false)
  | none => (content, false)

/-! ### Specification-side definitions

These are written from the specification's words (not from the source), to
be compared with the definitions embedded from the source. -/

/-- The domain-filtered query construction as the specification words it:
normalize the domains and drop empty entries; if the resulting count
exceeds the threshold, return the query unchanged; otherwise append
`" site:<d>"` for a single domain, or `" (site:<d1> OR site:<d2> OR ...)"`
for multiple, in the given order. -/
def buildDomainFilteredQuerySpec (query : String) (domains : List String)
    (threshold : Nat) : String :=
  let nds := (domains.map normalizeDomain).filter (fun d => d.data.length > 0)
  if nds.isEmpty then query
  else if nds.length > threshold then query
  else
    match nds with
    | [d] => query ++ " site:" ++ d
    | _ => query ++ " (" ++ String.intercalate " OR " (nds.map (fun d => "site:" ++ d)) ++ ")"

/-- Domain normalization exactly as claim C7 words it: the input lowercased
(with no trimming step), protocol stripped, `www.` stripped, cut at the
first `/` and at the first `:`. -/
def normalizeDomainSpecUntrimmed (domain : String) : String :=
  ⟨takeUntil ':' (takeUntil '/' (stripWww (stripProto (jsToLower domain.data))))⟩

/-- Domain normalization as amended: the input trimmed and lowercased,
protocol stripped, `www.` stripped, cut at the first `/` and at the first
`:`. -/
def normalizeDomainSpec (domain : String) : String :=
  ⟨takeUntil ':' (takeUntil '/' (stripWww (stripProto (jsToLower (trimWs domain.data)))))⟩

/-! ### Helper lemmas on the text-cleaning pipeline -/

/-- Two adjacent characters are not both whitespace. -/
def NotBothWs (a b : Char) : Prop := ¬(isWs a = true ∧ isWs b = true)

theorem collapseWsGo_ws_eq_space :
    ∀ (l : List Char) (b : Bool), ∀ c ∈ collapseWsGo b l, isWs c = true → c = ' ' := by
  intro l
  induction l with
  | nil => intro b c hc; cases b <;> simp [collapseWsGo] at hc
  | cons a as ih =>
    intro b c hc hws
    cases b
    · by_cases ha : isWs a
      · simp only [collapseWsGo, if_pos ha, List.mem_cons] at hc
        rcases hc with h | h
        · exact h
        · exact ih true c h hws
      · simp only [collapseWsGo, if_neg ha, List.mem_cons] at hc
        rcases hc with h | h
        · rw [h] at hws; exact absurd hws (by simp [ha])
        · exact ih false c h hws
    · by_cases ha : isWs a
      · simp only [collapseWsGo, if_pos ha] at hc
        exact ih true c hc hws
      · simp only [collapseWsGo, if_neg ha, List.mem_cons] at hc
        rcases hc with h | h
        · rw [h] at hws; exact absurd hws (by simp [ha])
        · exact ih false c h hws

theorem collapseWsGo_no_nl (l : List Char) (b : Bool) :
    ∀ c ∈ collapseWsGo b l, c ≠ '\n' := by
  intro c hc hne
  subst hne
  have := collapseWsGo_ws_eq_space l b '\n' hc (by decide)
  exact absurd this (by decide)

theorem collapseNlGo_eq_self (l : List Char) (h : ∀ c ∈ l, c ≠ '\n') :
    collapseNlGo none l = l := by
  induction l with
  | nil => rfl
  | cons a as ih =>
    have ha : a ≠ '\n' := h a (List.mem_cons_self a as)
    simp only [collapseNlGo, if_neg ha]
    exact congrArg (a :: ·) (ih fun c hc => h c (List.mem_cons_of_mem a hc))

theorem collapseWsGo_true_head (l : List Char) :
    ∀ c ∈ (collapseWsGo true l).head?, isWs c = false := by
  induction l with
  | nil => simp [collapseWsGo]
  | cons a as ih =>
    intro c hc
    by_cases ha : isWs a
    · exact ih c (by simpa [collapseWsGo, ha] using hc)
    · simp only [collapseWsGo, if_neg ha, List.head?_cons, Option.mem_def,
        Option.some.injEq] at hc
      subst hc
      simpa using ha

theorem collapseWsGo_chain (l : List Char) (b : Bool) :
    List.Chain' NotBothWs (collapseWsGo b l) := by
  induction l generalizing b with
  | nil => cases b <;> exact List.chain'_nil
  | cons a as ih =>
    cases b
    · by_cases ha : isWs a
      · simp only [collapseWsGo, if_pos ha]
        refine List.chain'_cons'.mpr ⟨?_, ih true⟩
        intro y hy hb
        exact absurd hb.2 (by simp [collapseWsGo_true_head as y hy])
      · simp only [collapseWsGo, if_neg ha]
        refine List.chain'_cons'.mpr ⟨?_, ih false⟩
        intro y _ hb
        exact absurd hb.1 (by simp [ha])
    · by_cases ha : isWs a
      · simp only [collapseWsGo, if_pos ha]
        exact ih true
      · simp only [collapseWsGo, if_neg ha]
        refine List.chain'_cons'.mpr ⟨?_, ih false⟩
        intro y _ hb
        exact absurd hb.1 (by simp [ha])

theorem head_dropWhile_not (p : Char → Bool) (l : List Char) :
    ∀ c ∈ (l.dropWhile p).head?, p c = false := by
  induction l with
  | nil => simp
  | cons a as ih =>
    by_cases pa : p a
    · simpa [List.dropWhile_cons, pa] using ih
    · intro c hc
      rw [List.dropWhile_cons, if_neg pa] at hc
      simp only [List.head?_cons, Option.mem_def, Option.some.injEq] at hc
      subst hc
      simpa using pa

theorem head_mem_of_isPrefix {l₁ l₂ : List Char} (h : l₁ <+: l₂) :
    ∀ c ∈ l₁.head?, c ∈ l₂.head? := by
  obtain ⟨t, rfl⟩ := h
  cases l₁ with
  | nil => simp
  | cons a as => simp

theorem trimWs_last (l : List Char) : ∀ c ∈ (trimWs l).getLast?, isWs c = false := by
  intro c hc
  unfold trimWs at hc
  rw [List.getLast?_reverse] at hc
  exact head_dropWhile_not isWs _ c hc

theorem trimWs_head (l : List Char) : ∀ c ∈ (trimWs l).head?, isWs c = false := by
  intro c hc
  unfold trimWs at hc
  have hsuf : ((l.dropWhile isWs).reverse.dropWhile isWs) <:+ (l.dropWhile isWs).reverse :=
    List.dropWhile_suffix isWs
  have hpre : ((l.dropWhile isWs).reverse.dropWhile isWs).reverse <+: l.dropWhile isWs := by
    rw [← List.reverse_suffix]
    simpa using hsuf
  have := head_mem_of_isPrefix hpre c hc
  exact head_dropWhile_not isWs l c this

theorem trimWs_subset (l : List Char) : ∀ c ∈ trimWs l, c ∈ l := by
  intro c hc
  unfold trimWs at hc
  rw [List.mem_reverse] at hc
  have h1 := (List.dropWhile_sublist isWs).subset hc
  rw [List.mem_reverse] at h1
  exact (List.dropWhile_sublist isWs).subset h1

theorem notBothWs_symm : ∀ {a b : Char}, NotBothWs a b → NotBothWs b a := by
  intro a b h hb
  exact h ⟨hb.2, hb.1⟩

theorem chain_reverse_of_chain {l : List Char} (h : List.Chain' NotBothWs l) :
    List.Chain' NotBothWs l.reverse := by
  rw [List.chain'_reverse]
  exact h.imp fun a b hab => notBothWs_symm hab

theorem trimWs_chain {l : List Char} (h : List.Chain' NotBothWs l) :
    List.Chain' NotBothWs (trimWs l) := by
  unfold trimWs
  exact chain_reverse_of_chain
    ((chain_reverse_of_chain (h.suffix (List.dropWhile_suffix isWs))).suffix
      (List.dropWhile_suffix isWs))

theorem head_mem_of_take {l : List Char} {m : Nat} :
    ∀ c ∈ (l.take m).head?, c ∈ l.head? := by
  cases m with
  | zero => simp
  | succ k => cases l <;> simp

theorem collapseWsGo_false_eq_self (l : List Char)
    (h2 : ∀ c ∈ l, isWs c = true → c = ' ')
    (h3 : List.Chain' NotBothWs l) :
    collapseWsGo false l = l := by
  induction l with
  | nil => rfl
  | cons a as ih =>
    have ih' := ih (fun c hc => h2 c (List.mem_cons_of_mem a hc)) h3.tail
    by_cases ha : isWs a
    · have haSp : a = ' ' := h2 a (List.mem_cons_self a as) ha
      simp only [collapseWsGo, if_pos ha]
      have htf : collapseWsGo true as = collapseWsGo false as := by
        cases as with
        | nil => rfl
        | cons d ds =>
          have hd : isWs d = false := by
            have := List.chain'_cons'.mp h3
            have hnb := this.1 d (by simp)
            by_contra hdd
            exact hnb ⟨ha, by simpa using hdd⟩
          simp only [collapseWsGo, hd, Bool.false_eq_true, if_false]
      rw [htf, ih', haSp]
    · simp only [collapseWsGo, if_neg ha]
      exact congrArg (a :: ·) ih'

theorem dropWhile_eq_self_of_head (l : List Char)
    (h : ∀ c ∈ l.head?, isWs c = false) : l.dropWhile isWs = l := by
  cases l with
  | nil => rfl
  | cons a as =>
    have ha : isWs a = false := h a (by simp)
    rw [List.dropWhile_cons, if_neg (by simp [ha])]

theorem trimWs_eq_self (l : List Char)
    (hh : ∀ c ∈ l.head?, isWs c = false)
    (hl : ∀ c ∈ l.getLast?, isWs c = false) :
    trimWs l = l := by
  unfold trimWs
  rw [dropWhile_eq_self_of_head l hh]
  rw [dropWhile_eq_self_of_head l.reverse (by simpa using hl)]
  exact List.reverse_reverse l

theorem cleanText_data_eq (text : String) (m : Nat) :
    (cleanText text m).data = (trimWs (collapseWsGo false text.data)).take m := by
  unfold cleanText
  rw [collapseNlGo_eq_self _ (collapseWsGo_no_nl text.data false)]

theorem cleanText_invariants (text : String) (m : Nat) :
    (∀ c ∈ (cleanText text m).data, isWs c = true → c = ' ') ∧
    List.Chain' NotBothWs (cleanText text m).data ∧
    (∀ c ∈ (cleanText text m).data.head?, isWs c = false) ∧
    (cleanText text m).data.length ≤ m := by
  rw [cleanText_data_eq]
  refine ⟨?_, ?_, ?_, ?_⟩
  · intro c hc
    exact collapseWsGo_ws_eq_space text.data false c
      (trimWs_subset _ c ((List.take_sublist m _).subset hc))
  · exact (trimWs_chain (collapseWsGo_chain text.data false)).take m
  · intro c hc
    exact trimWs_head _ c (head_mem_of_take c hc)
  · rw [List.length_take]
    exact min_le_left _ _

theorem cleanText_fixed (s : String) (m : Nat)
    (p2 : ∀ c ∈ s.data, isWs c = true → c = ' ')
    (p3 : List.Chain' NotBothWs s.data)
    (ph : ∀ c ∈ s.data.head?, isWs c = false)
    (hl : ∀ c ∈ s.data.getLast?, isWs c = false)
    (plen : s.data.length ≤ m) :
    cleanText s m = s := by
  unfold cleanText
  rw [collapseWsGo_false_eq_self s.data p2 p3]
  rw [collapseNlGo_eq_self s.data (fun c hc hne => by
    subst hne
    exact absurd (p2 '\n' hc (by decide)) (by decide))]
  rw [trimWs_eq_self s.data ph hl]
  rw [List.take_of_length_le plen]

/-! ### Helper lemmas on the gateway formatting -/

theorem formatSearchResult_error_eq (v : Option Int) (r : SearchResult) :
    (formatSearchResult v r).error =
      (if r.fetchStatus = FetchStatus.error ∧ jsTruthy r.error then r.error else none) := by
  unfold formatSearchResult
  repeat' split
  all_goals rfl

theorem formatSearchResult_truncating (m : Int) (r : SearchResult)
    (hfull : r.fullContent ≠ "" ∧ jsTrim r.fullContent ≠ "")
    (hc : 0 < m ∧ (r.fullContent.data.length : Int) > m) :
    formatSearchResult (some m) r =
      ⟨r.title, r.url, r.description, r.timestamp, r.fetchStatus,
        some (substringTo r.fullContent m), none, true, some r.fullContent.data.length,
        some r.wordCount,
        if r.fetchStatus = FetchStatus.error ∧ jsTruthy r.error then r.error else none⟩ := by
  unfold formatSearchResult
  rw [if_pos hfull]
  dsimp only
  rw [if_pos hc]

theorem substringTo_length {s : String} {m : Int} (hm : 0 < m)
    (h : (s.data.length : Int) > m) : ((substringTo s m).data.length : Int) = m := by
  simp only [substringTo, List.length_take]
  omega

/-! ### The claims -/

/-- Claim C1, counterexample: a request with `limit` 11 (or 0) is rejected
with a 400 error by the shared limit validation — it is not clamped into
range and served, contradicting the claim as stated. -/
theorem limit_out_of_range_rejected :
    validateLimit (some 11) = Except.error () ∧ validateLimit (some 0) = Except.error () :=
  ⟨rfl, rfl⟩

/-- Claim C1 as amended: an out-of-range requested count is rejected with a
400 error rather than clamped; every accepted request's effective count lies
in [1,10], and every in-range count is accepted unchanged. -/
theorem validateLimit_inRange :
    (∀ limit l, validateLimit limit = Except.ok l → 1 ≤ l ∧ l ≤ 10) ∧
    (∀ l : Int, 1 ≤ l → l ≤ 10 → validateLimit (some l) = Except.ok l) := by
  constructor
  · intro limit l h
    simp only [validateLimit] at h
    split at h
    · exact absurd h (by simp)
    · rename_i hc
      cases h
      omega
  · intro l h1 h2
    simp only [validateLimit, Option.getD]
    rw [if_neg (by omega)]

/-- Witness for C1's amended theorem at concrete inputs: an absent limit is
accepted as 5, and 7 is accepted unchanged. -/
theorem validateLimit_inRange_witness :
    (1 ≤ (5 : Int) ∧ (5 : Int) ≤ 10) ∧ validateLimit (some 7) = Except.ok 7 :=
  ⟨validateLimit_inRange.1 none 5 rfl, validateLimit_inRange.2 7 (by decide) (by decide)⟩

/-- Claim C2, counterexample: `cleanText "a b" 2 = "a "` (the cap cuts right
after the space), and cleaning again trims that trailing space, so a second
application changes the result. -/
theorem cleanText_not_idempotent_counterexample :
    cleanText (cleanText "a b" 2) 2 ≠ cleanText "a b" 2 := by decide

/-- Claim C2 as amended: `cleanText` is idempotent on every input whose
cleaned form does not end in a space (the only way the length cap can leave
whitespace at the edge): if `cleanText t m` does not end with `' '` then
cleaning it again returns it unchanged. -/
theorem cleanText_idempotent (text : String) (m : Nat)
    (h : (cleanText text m).data.getLast? ≠ some ' ') :
    cleanText (cleanText text m) m = cleanText text m := by
  obtain ⟨p2, p3, ph, plen⟩ := cleanText_invariants text m
  refine cleanText_fixed _ m p2 p3 ph ?_ plen
  intro c hc
  by_contra hws
  have hsp := p2 c (List.mem_of_getLast?_eq_some hc) (by simpa using hws)
  rw [hsp] at hc
  exact h hc

/-- Witness for C2's amended theorem at a concrete input. -/
theorem cleanText_idempotent_witness :
    (cleanText "ab" 5).data.getLast? ≠ some ' ' ∧
    cleanText (cleanText "ab" 5) 5 = cleanText "ab" 5 :=
  ⟨by decide, cleanText_idempotent "ab" 5 (by decide)⟩

/-- Claim C3: `buildDomainFilteredQuery` agrees with the specification's
description (normalize, drop empties, return the query unchanged past the
threshold, otherwise append one `site:` clause or a parenthesized
`OR`-joined group in order), and on the spec's worked example
`buildDomainFilteredQuery "cats" ["https://Example.com/", "www.example.org"] 10`
produces `"cats (site:example.com OR site:example.org)"`. -/
theorem buildDomainFilteredQuery_correct :
    (∀ q ds k, buildDomainFilteredQuery q ds k = buildDomainFilteredQuerySpec q ds k) ∧
    buildDomainFilteredQuery "cats" ["https://Example.com/", "www.example.org"] 10
      = "cats (site:example.com OR site:example.org)" := by
  constructor
  · intro q ds k
    unfold buildDomainFilteredQuery buildDomainFilteredQuerySpec
    cases ds with
    | nil => simp
    | cons d ds => simp
  · decide

/-- Claim C4, counterexample: `getContentPreview "hi..." 500` ends with
`"..."` even though the cleaned text's length is 5, not 500 — the "only if"
direction of the claim fails when the input itself ends in dots. -/
theorem getContentPreview_ellipsis_counterexample :
    "...".data.isSuffixOf (getContentPreview "hi..." 500).data = true ∧
    (cleanText "hi..." 500).length ≠ 500 := by decide

/-- Claim C4 as amended: `getContentPreview text n` ends with `"..."` iff
the cleaned text's length equals `n` (the marker was appended) or the
cleaned text itself already ends with `"..."`. -/
theorem getContentPreview_ellipsis (text : String) (n : Nat) :
    "...".data.isSuffixOf (getContentPreview text n).data = true ↔
    ((cleanText text n).length = n ∨
      "...".data.isSuffixOf (cleanText text n).data = true) := by
  simp only [getContentPreview]
  by_cases h : (cleanText text n).length = n
  · rw [if_pos h]
    simp only [String.data_append, List.isSuffixOf_iff_suffix]
    exact ⟨fun _ => Or.inl h, fun _ => List.suffix_append _ _⟩
  · rw [if_neg h]
    simp [h]

/-- Claim C5: when `maxContentLength` is supplied, positive, and exceeded by
a result's extracted full content, the `/api/search` response formatter
truncates the returned `fullContent` to exactly that length (and flags
`contentTruncated`), and the `/api/content` response does the same to its
`content` field. -/
theorem maxContentLength_truncates (m : Int) (r : SearchResult) (content : String)
    (hm : 0 < m)
    (hfull : r.fullContent ≠ "" ∧ jsTrim r.fullContent ≠ "")
    (hlen : (r.fullContent.data.length : Int) > m)
    (hclen : (content.data.length : Int) > m) :
    (formatSearchResult (some m) r).fullContent = some (substringTo r.fullContent m) ∧
    ((substringTo r.fullContent m).data.length : Int) = m ∧
    (formatSearchResult (some m) r).contentTruncated = true ∧
    contentResponseBody (some m) content = (substringTo content m, true) ∧
    ((substringTo content m).data.length : Int) = m := by
  rw [formatSearchResult_truncating m r hfull ⟨hm, hlen⟩]
  refine ⟨rfl, substringTo_length hm hlen, rfl, ?_, substringTo_length hm hclen⟩
  unfold contentResponseBody
  dsimp only
  rw [if_pos ⟨hm, hclen⟩]

/-- Witness for C5 at concrete inputs: full content "abcdef" with limit 3 is
cut to exactly 3 characters in both response shapes. -/
theorem maxContentLength_truncates_witness :
    (formatSearchResult (some 3)
        ⟨"t", "u", "d", "ts", "abcdef", "", 6, FetchStatus.success, none⟩).fullContent
      = some (substringTo "abcdef" 3) ∧
    ((substringTo "abcdef" 3 : String).data.length : Int) = 3 ∧
    (formatSearchResult (some 3)
        ⟨"t", "u", "d", "ts", "abcdef", "", 6, FetchStatus.success, none⟩).contentTruncated
      = true ∧
    contentResponseBody (some 3) "wxyz" = (substringTo "wxyz" 3, true) ∧
    ((substringTo "wxyz" 3 : String).data.length : Int) = 3 :=
  maxContentLength_truncates 3 ⟨"t", "u", "d", "ts", "abcdef", "", 6, FetchStatus.success, none⟩
    "wxyz" (by decide) (by decide) (by decide) (by decide)

/-- Claim C6: in every formatted `/api/search` result record, `fullContent`
and `contentPreview` are mutually exclusive — at least one of the two fields
is absent, whatever the incoming record and content-length option. -/
theorem fullContent_preview_exclusive (validatedMaxContentLength : Option Int)
    (r : SearchResult) :
    (formatSearchResult validatedMaxContentLength r).fullContent = none ∨
    (formatSearchResult validatedMaxContentLength r).contentPreview = none := by
  unfold formatSearchResult
  repeat' split
  all_goals simp

/-- Claim C7, counterexample: on the input `" example.com"` the code trims
first and returns `"example.com"`, while the claim's description (which
omits the trim) would return `" example.com"`. -/
theorem normalizeDomain_untrimmed_counterexample :
    normalizeDomain " example.com" = "example.com" ∧
    normalizeDomainSpecUntrimmed " example.com" = " example.com" ∧
    normalizeDomain " example.com" ≠ normalizeDomainSpecUntrimmed " example.com" := by
  decide

/-- Claim C7 as amended: `normalizeDomain` returns the input trimmed and
lowercased, with a leading `http://`/`https://` stripped, a leading `www.`
stripped, then cut at the first `/` and at the first `:`. -/
theorem normalizeDomain_correct : ∀ s, normalizeDomain s = normalizeDomainSpec s :=
  fun _ => rfl

/-- Claim C8: `isPdfUrl url` is true iff the URL parses and its pathname
ends in `.pdf` case-insensitively, or parsing fails and the raw string ends
in `.pdf` case-insensitively; in particular it holds on
`"https://x.com/report.PDF"` and, via the fallback (parsing fails), on
`"not-a-url-but-ends-in.pdf"`. -/
theorem isPdfUrl_correct :
    (∀ url, isPdfUrl url = true ↔
      ((∃ u, parseUrl url = some u ∧ endsWithCI u.pathname ".pdf" = true) ∨
       (parseUrl url = none ∧ endsWithCI url ".pdf" = true))) ∧
    isPdfUrl "https://x.com/report.PDF" = true ∧
    (parseUrl "not-a-url-but-ends-in.pdf" = none ∧
      isPdfUrl "not-a-url-but-ends-in.pdf" = true) := by
  refine ⟨fun url => ?_, by decide, by decide⟩
  unfold isPdfUrl
  cases h : parseUrl url <;> simp [h]

/-- Claim C9: a `maxContentLength` of exactly 0 passes validation (no 400)
and is normalized to `undefined`; with no limit in effect the `/api/search`
formatter never truncates (and returns full content unchanged when present),
and the `/api/content` response returns the content unchanged. -/
theorem maxContentLength_zero_unlimited :
    validateMaxContentLength (some 0) = Except.ok none ∧
    (∀ r, (formatSearchResult none r).contentTruncated = false ∧
      ((formatSearchResult none r).fullContent = none ∨
        (formatSearchResult none r).fullContent = some r.fullContent)) ∧
    (∀ content, contentResponseBody none content = (content, false)) := by
  refine ⟨rfl, fun r => ?_, fun content => rfl⟩
  unfold formatSearchResult
  repeat' split
  all_goals simp_all

/-- Claim C10: a formatted `/api/search` record carries an `error` string
iff its `fetchStatus` is `'error'` and the record's error is present and
non-empty; a record whose `fetchStatus` is `'timeout'` never has its error
exposed. -/
theorem error_field_exposure (validatedMaxContentLength : Option Int) (r : SearchResult) :
    (∀ s, (formatSearchResult validatedMaxContentLength r).error = some s ↔
      (r.fetchStatus = FetchStatus.error ∧ r.error = some s ∧ s ≠ "")) ∧
    (r.fetchStatus = FetchStatus.timeout →
      (formatSearchResult validatedMaxContentLength r).error = none) := by
  rw [formatSearchResult_error_eq]
  constructor
  · intro s
    by_cases hc : r.fetchStatus = FetchStatus.error ∧ jsTruthy r.error
    · rw [if_pos hc]
      obtain ⟨h1, h2⟩ := hc
      constructor
      · intro he
        refine ⟨h1, he, ?_⟩
        rw [he] at h2
        simpa [jsTruthy] using h2
      · intro ⟨_, he, _⟩
        exact he
    · rw [if_neg hc]
      constructor
      · intro he
        exact absurd he (by simp)
      · intro ⟨h1, h2, h3⟩
        exact absurd ⟨h1, by simp [jsTruthy, h2, h3]⟩ hc
  · intro ht
    rw [if_neg]
    intro ⟨h1, _⟩
    rw [ht] at h1
    exact absurd h1 (by simp)

/-- Witness for C10 at concrete records: an `'error'` record's non-empty
error string is exposed; a `'timeout'` record's error string is not. -/
theorem error_field_exposure_witness :
    (formatSearchResult none
        ⟨"t", "u", "d", "ts", "", "", 0, FetchStatus.error, some "boom"⟩).error
      = some "boom" ∧
    (formatSearchResult none
        ⟨"t", "u", "d", "ts", "", "", 0, FetchStatus.timeout, some "boom"⟩).error
      = none :=
  ⟨((error_field_exposure none
      ⟨"t", "u", "d", "ts", "", "", 0, FetchStatus.error, some "boom"⟩).1 "boom").mpr
      ⟨rfl, rfl, by decide⟩,
    (error_field_exposure none
      ⟨"t", "u", "d", "ts", "", "", 0, FetchStatus.timeout, some "boom"⟩).2 rfl⟩

end WebSearchMcp
